import Mathlib

/-!
Verification of the `free_access` concurrent memory-reclamation substrate.

This file shallowly embeds the parts of the Rust sources needed by the
claims under scrutiny and proves (or refutes) each claim about them.
Raw pointers are modelled as natural numbers with `0` playing the role of
the null pointer; 64-bit machine words are natural numbers reduced
`% 2 ^ 64` wherever overflow matters.  Operations whose source is a
CAS-retry loop are embedded in their single-threaded determinisation
(every CAS on un-contended state succeeds on the first attempt); where a
claim explicitly concerns the behaviour after a lost CAS race, the second
observation of the contended word is passed in as an explicit parameter.
Payload type parameters (`T` in the Rust sources) are instantiated at
`Nat` throughout, which is enough for every claim considered here.
-/

namespace FreeAccess

/-- Width of a machine word (`u64` / `usize`). -/
def wordSize : Nat := 2 ^ 64

/-! ## `src/dirty.rs` : the dirty word

`DirtyValue` packs `(phase, dirty)` into one 64-bit word:
`to_u64 = (phase << 8) | (dirty ? 1 : 0)`, `from_u64` reads bit 0 and the
bits from 8 upward. -/

/-- Embeds `DirtyValue` from `src/dirty.rs`: a decoded dirty word. -/
structure DirtyValue where
  dirty : Bool
  phase : Nat
  deriving DecidableEq, Repr

/-- Embeds `DirtyValue::from_u64`: bit 0 is the dirty flag, bits 8.. are the phase. -/
def DirtyValue.from_u64 (val : Nat) : DirtyValue :=
  { dirty := val &&& 1 = 1, phase := val >>> 8 }

/-- Embeds `DirtyValue::to_u64`: `(phase << 8) | dirty_mask`, on a 64-bit word. -/
def DirtyValue.to_u64 (v : DirtyValue) : Nat :=
  ((v.phase <<< 8) % wordSize) ||| (if v.dirty then 0x01 else 0x00)

/-! ## `src/allocator/page.rs` : the `PageNode` marker word

`NodeMarks` uses the same layout; the encoder additionally masks the
result with `0xffffffffffffff00` before or-ing in the mark bit. -/

/-- Embeds `NodeMarks` from `src/allocator/page.rs`: a decoded marker word. -/
structure NodeMarks where
  marked : Bool
  phase : Nat
  deriving DecidableEq, Repr

/-- Embeds `impl From<u64> for NodeMarks`. -/
def NodeMarks.from_u64 (raw : Nat) : NodeMarks :=
  { marked := raw &&& 0x01 = 0x01, phase := raw >>> 8 }

/-- Embeds `impl Into<u64> for NodeMarks`:
`((phase << 8) & 0xffffffffffffff00) | marked_mask`. -/
def NodeMarks.to_u64 (m : NodeMarks) : Nat :=
  (((m.phase <<< 8) % wordSize) &&& 0xffffffffffffff00) |||
    (if m.marked then 0x01 else 0x00)

/-! ## `src/allocator/page/node.rs` : payload-offset arithmetic

`get_data_ptr` adds the constant payload offset to the node's base
address; `from_data_ptr` subtracts it again.  Addresses are `usize`
values, so the arithmetic is modulo `2 ^ 64` (Rust release-mode wrapping
semantics).  The offset is kept abstract: it is `offset_of!(PageNode<T>,
data)`, a constant of the node type. -/

/-- Embeds `PageNode::get_data_ptr`: `base + data_offset()`, a `usize` addition. -/
def PageNode.get_data_ptr (base off : Nat) : Nat :=
  (base + off) % wordSize

/-- Embeds `PageNode::from_data_ptr`: `ptr - data_offset()`, a wrapping `usize`
subtraction. -/
def PageNode.from_data_ptr (ptr off : Nat) : Nat :=
  (ptr + (wordSize - off % wordSize)) % wordSize

/-! ## `src/hazard_ptrs.rs` and `src/hazard_ptrs/ptr.rs` : hazard frames

A `HazardPtrFrame` is an append-only singly-linked list of `HazardPtr`
cells, each holding one nullable pointer.  The cell list never shrinks,
so the frame is modelled as the list of the pointer slots in list order,
`0` being an empty slot.  `store` CAS-installs into the first empty slot
or appends a fresh cell at the tail; `clear` resets every slot; `roots`
collects the non-null slots in order. -/

/-- A hazard-pointer frame: the slots of its cell list, `0` = empty slot. -/
abbrev HazardFrame : Type := List Nat

/-- Embeds `HazardPtrFrame::new`: a single cell holding the null pointer. -/
def HazardFrame.new : HazardFrame := [0]

/-- Embeds `HazardPtrFrame::store`: scan for the first empty slot and
install there (the `HazardPtr::store` CAS succeeds exactly on an empty
slot); if every slot is occupied, append a fresh cell holding `ptr`. -/
def HazardFrame.store (f : HazardFrame) (ptr : Nat) : HazardFrame :=
  match f with
  | [] => [ptr]
  | slot :: rest =>
    if slot = 0 then ptr :: rest
    else slot :: HazardFrame.store rest ptr

/-- Embeds `HazardPtrFrame::clear`: `HazardPtr::reset` on every cell. -/
def HazardFrame.clear (f : HazardFrame) : HazardFrame :=
  f.map (fun _ => 0)

/-- Embeds `HazardPtrFrame::roots`: every non-null slot, in cell order. -/
def HazardFrame.roots (f : HazardFrame) : List Nat :=
  f.filter (fun slot => slot ≠ 0)

/-- Iterated `store`, for staging several pointers in order. -/
def HazardFrame.storeAll (f : HazardFrame) (ptrs : List Nat) : HazardFrame :=
  ptrs.foldl HazardFrame.store f

/-! ## `src/lib.rs` : the arbiter and `begin_write_only`

The arbiter is a single byte whose relevant values are 0 and 1; its
`next` method returns `current % 2`.  `begin_write_only(staged)` stores
every staged pointer into the hazard frame indexed by `arbiter.next()`,
then reads the dirty word: if dirty it fails, otherwise it stores the
next arbiter value and succeeds. -/

/-- Embeds `Arbiter::next`: `prev % 2` (a plain load followed by `% 2`). -/
def Arbiter.next (current : Nat) : Nat := current % 2

/-- The thread-local state touched by `begin_write_only`
(from `Local` in `src/local.rs`): the arbiter byte, the two hazard
frames, and the dirty word. -/
structure LocalWr where
  arbiter : Nat
  frame0 : HazardFrame
  frame1 : HazardFrame
  dirty : DirtyValue
  deriving DecidableEq

/-- The hazard frame of `l` selected by index `i` (the array access
`hazard_ptr_frames[i]`; only 0 and 1 occur). -/
def LocalWr.frameAt (l : LocalWr) (i : Nat) : HazardFrame :=
  if i = 0 then l.frame0 else l.frame1

/-- Replaces the hazard frame of `l` at index `i`. -/
def LocalWr.setFrame (l : LocalWr) (i : Nat) (f : HazardFrame) : LocalWr :=
  if i = 0 then { l with frame0 := f } else { l with frame1 := f }

/-- Embeds `Allocator::begin_write_only`: store each staged pointer into
the frame selected by `arbiter.next()`, then read the dirty word; fail
if dirty, otherwise publish the next arbiter value.  Returns the updated
local state and whether the call succeeded (`Ok` = `true`). -/
def beginWriteOnly (l : LocalWr) (staged : List Nat) : LocalWr × Bool :=
  let nxt := Arbiter.next l.arbiter
  let l' := l.setFrame nxt ((l.frameAt nxt).storeAll staged)
  if l.dirty.dirty then (l', false)
  else ({ l' with arbiter := nxt }, true)

/-! ## `src/markstack.rs` : the mark stack

The stack is a list of never-freed cells, each holding one nullable
pointer, doubly linked in creation order; `head` is the index of the
published head cell.  `push` scans from the head forward along the
`next` links for an empty cell and installs there, appending a new cell
(and publishing it as head) when every cell from the head onward is
occupied.  `pop` scans from the head backward along the `previous` links
for an occupied cell, clears it and, unless that cell is the base cell,
rewinds the head to its predecessor.  `peek` is the read-only version of
the same backward scan. -/

/-- A mark stack: the data slots of its cell list in creation order
(`previous` = index - 1, `next` = index + 1), plus the head index.
`0` is an empty slot. -/
structure MarkStack where
  cells : List Nat
  head : Nat
  deriving DecidableEq, Repr

/-- Embeds `MarkStack::new`: one empty base cell, published as head. -/
def MarkStack.new : MarkStack := { cells := [0], head := 0 }

/-- First index `≥ i` holding an empty slot, if any (the forward scan of
`MarkStack::push`). -/
def MarkStack.firstEmptyFrom (cells : List Nat) (i : Nat) : Option Nat :=
  ((cells.drop i).findIdx? (fun slot => slot = 0)).map (fun j => j + i)

/-- Embeds `MarkStack::push`: install into the first empty cell at or
after the head (head unchanged), else append a fresh cell and publish it
as the new head. -/
def MarkStack.push (s : MarkStack) (d : Nat) : MarkStack :=
  match MarkStack.firstEmptyFrom s.cells s.head with
  | some j => { s with cells := s.cells.set j d }
  | none => { cells := s.cells ++ [d], head := s.cells.length }

/-- Backward scan from index `j` for an occupied cell: returns the index
and the value found (shared by `pop`, `peek` and `is_empty`). -/
def MarkStack.findTop (cells : List Nat) : Nat → Option (Nat × Nat)
  | 0 => if cells.getD 0 0 ≠ 0 then some (0, cells.getD 0 0) else none
  | j + 1 =>
    if cells.getD (j + 1) 0 ≠ 0 then some (j + 1, cells.getD (j + 1) 0)
    else MarkStack.findTop cells j

/-- Embeds `MarkStack::pop`: clear the first occupied cell at or below
the head; if that cell has a predecessor, rewind the head to it. -/
def MarkStack.pop (s : MarkStack) : Option Nat × MarkStack :=
  match MarkStack.findTop s.cells s.head with
  | none => (none, s)
  | some (j, v) =>
    (some v,
      { cells := s.cells.set j 0, head := if j = 0 then s.head else j - 1 })

/-- Embeds `MarkStack::peek`: the value the backward scan would pop. -/
def MarkStack.peek (s : MarkStack) : Option Nat :=
  (MarkStack.findTop s.cells s.head).map (fun p => p.2)

/-- Embeds `MarkStack::is_empty`: the backward scan finds no occupied cell. -/
def MarkStack.isEmptyScan (s : MarkStack) : Bool :=
  (MarkStack.findTop s.cells s.head).isNone

/-- Iterated `push`, in list order. -/
def MarkStack.pushAll (s : MarkStack) (ds : List Nat) : MarkStack :=
  ds.foldl MarkStack.push s

/-- `n` consecutive `pop`s: the values returned, in pop order, and the
final stack. -/
def MarkStack.popMany : Nat → MarkStack → List (Option Nat) × MarkStack
  | 0, s => ([], s)
  | n + 1, s =>
    ((MarkStack.pop s).1 :: (MarkStack.popMany n (MarkStack.pop s).2).1,
      (MarkStack.popMany n (MarkStack.pop s).2).2)

/-! ## `src/local.rs` : `Local::mark_node`

`mark_node(local_phase)` peeks the thread's mark stack (empty ⇒ `Done`),
resolves the `PageNode` marker of the top pointer, pops-and-returns
`NotDone` if it is already marked or its phase differs, and otherwise
publishes `cur_traced`, pops the pointer, pushes its non-null children
and CASes the marker from `(local_phase, unmarked)` to `(local_phase,
marked)`, popping once per pushed child if the CAS fails.

The marker word of each node is read twice (once via `load_marks`, once
inside the CAS); the two observations are passed as separate functions
`marksLoad` and `marksCas` so that the lost-CAS path — reachable only
under interference from another thread — can be exercised.  `children p`
enumerates the client `pointers()` of the node behind `p` (possibly
null). -/

/-- The tracing-related thread-local state used by `mark_node`. -/
structure LocalMark where
  stack : MarkStack
  curTraced : Option Nat
  deriving DecidableEq

/-- Embeds `MarkNodeState` from `src/local.rs`. -/
inductive MarkNodeState where
  | Done
  | NotDone
  deriving DecidableEq, Repr

/-- Embeds `Local::mark_node`.  `marksLoad p` is the marker observed by
`load_marks`; `marksCas p` is the marker word the final
`update_marks` CAS finds (they coincide unless another thread raced). -/
def markNode (l : LocalMark) (marksLoad marksCas : Nat → NodeMarks)
    (children : Nat → List Nat) (localPhase : Nat) : LocalMark × MarkNodeState :=
  match l.stack.peek with
  | none => (l, MarkNodeState.Done)
  | some p =>
    let m := marksLoad p
    if m.marked || m.phase ≠ localPhase then
      ({ l with stack := l.stack.pop.2 }, MarkNodeState.NotDone)
    else
      let afterPop := l.stack.pop.2
      let kids := (children p).filter (fun c => c ≠ 0)
      let pushed := afterPop.pushAll kids
      if marksCas p = { marked := false, phase := localPhase } then
        ({ stack := pushed, curTraced := some p }, MarkNodeState.NotDone)
      else
        ({ stack := (pushed.popMany kids.length).2, curTraced := some p },
          MarkNodeState.NotDone)

/-! ## `src/allocator.rs` : the allocation buffer

A fixed vector of `BUFFER_SIZE = 128` pointer slots plus a head index.
`insert` refuses when `head + 1 >= 128`, else bumps the head and
CAS-installs into the old head slot (which succeeds exactly when the
slot was null); `pop` refuses when `head < 1`, else decrements the head
and CAS-clears the slot there, returning what it read. -/

/-- Embeds `BUFFER_SIZE` from `src/allocator.rs`. -/
def BUFFER_SIZE : Nat := 128

/-- Embeds `AllocationBuffer`: 128 pointer slots (`0` = null) and the
head index. -/
structure AllocationBuffer where
  buffer : List Nat
  head : Nat
  deriving DecidableEq, Repr

/-- Embeds `AllocationBuffer::new`: all slots null, head 0. -/
def AllocationBuffer.new : AllocationBuffer :=
  { buffer := List.replicate BUFFER_SIZE 0, head := 0 }

/-- Embeds `AllocationBuffer::is_empty`: `head < 1`. -/
def AllocationBuffer.is_empty (b : AllocationBuffer) : Bool :=
  b.head < 1

/-- Embeds `AllocationBuffer::insert`: fail when `head + 1 >= BUFFER_SIZE`;
otherwise store the bumped head and CAS the old head slot from null to
`ptr` — the CAS, and with it the insert, succeeds exactly when that slot
was null.  Returns the updated buffer and whether the insert succeeded. -/
def AllocationBuffer.insert (b : AllocationBuffer) (ptr : Nat) :
    AllocationBuffer × Bool :=
  let current := b.head
  let next := current + 1
  if next ≥ BUFFER_SIZE then (b, false)
  else
    let b' := { b with head := next }
    if b.buffer.getD current 0 = 0 then
      ({ b' with buffer := b.buffer.set current ptr }, true)
    else (b', false)

/-- Embeds `AllocationBuffer::pop`: `None` when `head < 1`; otherwise
decrement the head, read the slot there and CAS it back to null (the CAS
against the just-read value succeeds without interference). -/
def AllocationBuffer.pop (b : AllocationBuffer) :
    Option Nat × AllocationBuffer :=
  if b.head < 1 then (none, b)
  else
    let next := b.head - 1
    let ptr := b.buffer.getD next 0
    (some ptr, { buffer := b.buffer.set next 0, head := next })

/-- Iterated `insert`: final buffer plus the success flag of every
insert, in order. -/
def AllocationBuffer.insertAll (b : AllocationBuffer) (ptrs : List Nat) :
    AllocationBuffer × List Bool :=
  match ptrs with
  | [] => (b, [])
  | p :: rest =>
    let (b', ok) := AllocationBuffer.insert b p
    let (b'', oks) := AllocationBuffer.insertAll b' rest
    (b'', ok :: oks)

/-- The single-owner well-formedness of a buffer: 128 slots, every slot
below the head occupied, every slot from the head on empty.  It holds
for `new` and is preserved by `insert` and `pop` of non-null pointers. -/
def AllocationBuffer.wf (b : AllocationBuffer) : Prop :=
  b.buffer.length = BUFFER_SIZE ∧ b.head ≤ BUFFER_SIZE ∧
    (∀ i, i < b.head → b.buffer.getD i 0 ≠ 0) ∧
    (∀ i, b.head ≤ i → b.buffer.getD i 0 = 0)

/-! ## `src/allocator/pool.rs` : the phased pool

A never-freed list of cells `{data, state ∈ {Empty, Accessed, Set},
phase}` plus the pool's own phase word.  All CAS loops are embedded in
their single-threaded determinisation: the phase re-checks after an
`Accessed` acquisition always see the unchanged pool phase, and the tail
append succeeds first try.  Note that the source's append path stores
the `Accessed` state and the phase into the fresh cell, links it in and
returns `Ok` without ever writing `data` into the cell or storing the
`Set` state; the embedding reproduces that literally.  `MaybeUninit`
payloads are modelled by value `0` standing for uninitialised memory. -/

/-- Embeds `State` from `src/allocator/pool.rs`. -/
inductive PoolState where
  | Empty
  | Accessed
  | Set
  deriving DecidableEq, Repr

/-- Embeds `Node<T>` (at `T = Nat`): payload, state and phase of a pool
cell.  `data = 0` stands for uninitialised payload memory. -/
structure PoolNode where
  data : Nat
  state : PoolState
  phase : Nat
  deriving DecidableEq, Repr

/-- Embeds `Pool<T>`: the pool phase and the cell list in link order. -/
structure Pool where
  phase : Nat
  nodes : List PoolNode
  deriving DecidableEq, Repr

/-- Embeds `Pool::new`: phase 0 and a single cell from `Node::new`
(uninitialised data, `Empty`, phase 0). -/
def Pool.new : Pool :=
  { phase := 0, nodes := [{ data := 0, state := PoolState.Empty, phase := 0 }] }

/-- Embeds `PopError` from `src/allocator/pool.rs`. -/
inductive PopError where
  | Empty
  | InvalidPhase
  deriving DecidableEq, Repr

/-- Embeds `Pool::update_phase`: the CAS loop succeeds on the first
attempt without interference, so the phase is replaced iff
`previous < n_phase`.  Returns the updated pool and `Ok` = `true`. -/
def Pool.update_phase (pool : Pool) (nPhase : Nat) : Pool × Bool :=
  if pool.phase ≥ nPhase then (pool, false)
  else ({ pool with phase := nPhase }, true)

/-- The scan of `Pool::insert` over the cell list: an `Empty` cell is
taken (acquire, re-check the unchanged pool phase, write data and phase,
release as `Set`); a `Set` cell with `node_phase >= phase` is skipped; a
`Set` cell with an older phase is taken over the same way (its stale
payload dropped); an `Accessed` cell is skipped.  Returns the rewritten
cell list when a cell was claimed. -/
def Pool.insertScan (d p : Nat) : List PoolNode → Option (List PoolNode)
  | [] => none
  | node :: rest =>
    match node.state with
    | PoolState.Empty =>
      some ({ data := d, state := PoolState.Set, phase := p } :: rest)
    | PoolState.Set =>
      if node.phase ≥ p then
        (Pool.insertScan d p rest).map (fun rest' => node :: rest')
      else
        some ({ data := d, state := PoolState.Set, phase := p } :: rest)
    | PoolState.Accessed =>
      (Pool.insertScan d p rest).map (fun rest' => node :: rest')

/-- Embeds `Pool::insert`: fail fast on a phase mismatch; otherwise scan
for a cell; if the scan exhausts the list, append a fresh cell
pre-initialised to `Accessed` with the caller's phase — as in the
source, the appended cell's `data` is never written and its state is
left `Accessed`, yet `Ok` is returned. -/
def Pool.insert (pool : Pool) (d p : Nat) : Pool × Bool :=
  if pool.phase ≠ p then (pool, false)
  else
    match Pool.insertScan d p pool.nodes with
    | some nodes' => ({ pool with nodes := nodes' }, true)
    | none =>
      ({ pool with
          nodes := pool.nodes ++
            [{ data := 0, state := PoolState.Accessed, phase := p }] }, true)

/-- The scan of `Pool::pop`: each `Set` cell is acquired; a cell whose
phase differs from the pool phase has its stale payload dropped and is
released as `Empty` (the scan continues); otherwise the payload is moved
out and the cell released as `Empty`.  Returns the value found (if any)
and the rewritten cell list. -/
def Pool.popScan (poolPhase : Nat) : List PoolNode → Option Nat × List PoolNode
  | [] => (none, [])
  | node :: rest =>
    if node.state = PoolState.Set then
      if node.phase ≠ poolPhase then
        let (r, rest') := Pool.popScan poolPhase rest
        (r, { data := 0, state := PoolState.Empty, phase := node.phase } :: rest')
      else
        (some node.data,
          { data := 0, state := PoolState.Empty, phase := node.phase } :: rest)
    else
      let (r, rest') := Pool.popScan poolPhase rest
      (r, node :: rest')

/-- Embeds `Pool::pop`: `InvalidPhase` fast-fail on a phase mismatch,
then the scan; a complete scan without a hit is `Empty`.  (The source's
second in-scan re-check `pool_phase != phase` never fires
single-threadedly, the fast-path check having already passed.) -/
def Pool.pop (pool : Pool) (p : Nat) : Except PopError Nat × Pool :=
  if pool.phase ≠ p then (Except.error PopError.InvalidPhase, pool)
  else
    match Pool.popScan pool.phase pool.nodes with
    | (some v, nodes') => (Except.ok v, { pool with nodes := nodes' })
    | (none, nodes') => (Except.error PopError.Empty, { pool with nodes := nodes' })

end FreeAccess

namespace FreeAccess

/-! ## Helper lemmas -/

/-- Left shift distributes over bitwise and. -/
theorem shiftLeft_and_distrib (a b n : Nat) :
    (a &&& b) <<< n = (a <<< n) &&& (b <<< n) := by
  apply Nat.eq_of_testBit_eq
  intro i
  rcases Nat.lt_or_ge i n with h | h
  · simp [Nat.testBit_shiftLeft, h, Nat.not_le_of_lt h]
  · simp [Nat.testBit_shiftLeft, h, Nat.testBit_and]

/-- Or-ing a value below `2 ^ 8` into a byte-aligned word is addition. -/
theorem shifted_lor_small (a d : Nat) (hd : d < 2 ^ 8) :
    (a <<< 8) ||| d = a <<< 8 + d := by
  rw [Nat.shiftLeft_eq, Nat.mul_comm]
  exact (Nat.mul_add_lt_is_or hd a).symm

/-- The high-56-bit mask fixes every byte-aligned word built from a phase
below `2 ^ 56`. -/
theorem mask_high_fix (p : Nat) (hp : p < 2 ^ 56) :
    (p <<< 8) &&& 0xffffffffffffff00 = p <<< 8 := by
  have hmask : (0xffffffffffffff00 : Nat) = (2 ^ 56 - 1) <<< 8 := by
    norm_num [Nat.shiftLeft_eq]
  rw [hmask, ← shiftLeft_and_distrib, Nat.and_pow_two_sub_one_eq_mod,
    Nat.mod_eq_of_lt hp]

/-- A phase below `2 ^ 56` shifted left by one byte stays below `2 ^ 64`. -/
theorem shift_lt_wordSize (p : Nat) (hp : p < 2 ^ 56) :
    p <<< 8 < wordSize := by
  rw [Nat.shiftLeft_eq, wordSize]
  calc p * 2 ^ 8 < 2 ^ 56 * 2 ^ 8 :=
        Nat.mul_lt_mul_of_lt_of_le hp (Nat.le_refl _) (by norm_num)
    _ = 2 ^ 64 := by norm_num

/-- Decoding inverts encoding for any in-range dirty word. -/
theorem dirty_round_trip (d : Bool) (p : Nat) (hp : p < 2 ^ 56) :
    DirtyValue.from_u64 (DirtyValue.to_u64 ⟨d, p⟩) = ⟨d, p⟩ := by
  have hbit : (if d then (0x01 : Nat) else 0x00) < 2 ^ 8 := by
    cases d <;> norm_num
  rw [DirtyValue.to_u64, DirtyValue.from_u64]
  simp only [Nat.mod_eq_of_lt (shift_lt_wordSize p hp)]
  rw [shifted_lor_small _ _ hbit, Nat.shiftLeft_eq, Nat.shiftRight_eq_div_pow,
    Nat.and_one_is_mod]
  cases d <;> simp <;> omega

/-- Decoding inverts encoding for any in-range marker word. -/
theorem marks_round_trip (m : Bool) (p : Nat) (hp : p < 2 ^ 56) :
    NodeMarks.from_u64 (NodeMarks.to_u64 ⟨m, p⟩) = ⟨m, p⟩ := by
  have hbit : (if m then (0x01 : Nat) else 0x00) < 2 ^ 8 := by
    cases m <;> norm_num
  rw [NodeMarks.to_u64, NodeMarks.from_u64]
  simp only [Nat.mod_eq_of_lt (shift_lt_wordSize p hp), mask_high_fix p hp]
  rw [shifted_lor_small _ _ hbit, Nat.shiftLeft_eq, Nat.shiftRight_eq_div_pow,
    Nat.and_one_is_mod]
  cases m <;> simp <;> omega

/-- C8: the dirty-word encoding `(phase << 8) | dirty` and the PageNode
marker encoding round-trip exactly for every phase below `2 ^ 56`, and
`NodeMarks (marked := true) (phase := 13)` encodes to exactly `0x0D01`
and decodes back exactly. -/
theorem encoding_round_trips :
    (∀ (d : Bool) (p : Nat), p < 2 ^ 56 →
      DirtyValue.from_u64 (DirtyValue.to_u64 ⟨d, p⟩) = ⟨d, p⟩) ∧
    (∀ (m : Bool) (p : Nat), p < 2 ^ 56 →
      NodeMarks.from_u64 (NodeMarks.to_u64 ⟨m, p⟩) = ⟨m, p⟩) ∧
    NodeMarks.to_u64 ⟨true, 13⟩ = 0x0D01 ∧
    NodeMarks.from_u64 0x0D01 = ⟨true, 13⟩ :=
  ⟨dirty_round_trip, marks_round_trip, by decide, by decide⟩

/-- Witness for `encoding_round_trips` at concrete inputs. -/
theorem encoding_round_trips_witness :
    DirtyValue.from_u64 (DirtyValue.to_u64 ⟨true, 13⟩) = ⟨true, 13⟩ ∧
    NodeMarks.from_u64 (NodeMarks.to_u64 ⟨false, 7⟩) = ⟨false, 7⟩ :=
  ⟨encoding_round_trips.1 true 13 (by norm_num),
    encoding_round_trips.2.1 false 7 (by norm_num)⟩

/-- C9: recovering a node's base address from its payload pointer by
subtracting the fixed payload offset is exact for every node address and
offset representable in a machine word. -/
theorem payload_offset_identity (base off : Nat) (hb : base < wordSize)
    (ho : off < wordSize) :
    PageNode.from_data_ptr (PageNode.get_data_ptr base off) off = base := by
  rw [PageNode.get_data_ptr, PageNode.from_data_ptr, wordSize] at *
  rw [Nat.mod_eq_of_lt ho]
  omega

/-- Witness for `payload_offset_identity` at a concrete node address and
offset. -/
theorem payload_offset_identity_witness :
    PageNode.from_data_ptr (PageNode.get_data_ptr 4096 8) 8 = 4096 :=
  payload_offset_identity 4096 8 (by norm_num [wordSize]) (by norm_num [wordSize])

/-- C1: `update_phase(x)` succeeds if and only if `x` is strictly greater
than the current pool phase, for every pool state; and in the sequential
scenario insert-at-0, `update_phase(1)`, `pop(0)` returns InvalidPhase
and `pop(1)` returns Empty, the stale element being dropped from its
cell rather than returned. -/
theorem pool_phase_protection :
    (∀ (pool : Pool) (x : Nat), (pool.update_phase x).2 = true ↔ pool.phase < x) ∧
    (Pool.new.insert 13 0).2 = true ∧
    ((Pool.new.insert 13 0).1.update_phase 1).2 = true ∧
    (((Pool.new.insert 13 0).1.update_phase 1).1.pop 0).1 =
      Except.error PopError.InvalidPhase ∧
    (((Pool.new.insert 13 0).1.update_phase 1).1.pop 1) =
      (Except.error PopError.Empty,
        { phase := 1, nodes := [{ data := 0, state := PoolState.Empty, phase := 0 }] }) := by
  refine ⟨fun pool x => ?_, rfl, rfl, rfl, rfl⟩
  rw [Pool.update_phase]
  split
  · simp
    omega
  · simp
    omega

/-- C3 (code bug): from a fresh pool at phase 0, two inserts both return
Ok, but the second value vanishes — the append path of `Pool::insert`
never writes the data and leaves the fresh cell `Accessed` — so the
first pop returns 13 and the second returns Empty, losing 14. -/
theorem pool_insert_append_loses_value :
    (Pool.new.insert 13 0).2 = true ∧
    ((Pool.new.insert 13 0).1.insert 14 0).2 = true ∧
    ((((Pool.new.insert 13 0).1.insert 14 0).1).pop 0).1 = Except.ok 13 ∧
    (((((Pool.new.insert 13 0).1.insert 14 0).1).pop 0).2.pop 0).1 =
      Except.error PopError.Empty ∧
    (((Pool.new.insert 13 0).1.insert 14 0).1).nodes.getD 1
        { data := 0, state := PoolState.Empty, phase := 0 } =
      { data := 0, state := PoolState.Accessed, phase := 0 } := by
  exact ⟨rfl, rfl, rfl, rfl, rfl⟩

/-! ### Hazard-frame lemmas -/

/-- Clearing a frame leaves no roots. -/
theorem roots_clear (f : HazardFrame) : HazardFrame.roots (HazardFrame.clear f) = [] := by
  induction f with
  | nil => rfl
  | cons s rest ih =>
    simp [HazardFrame.clear, HazardFrame.roots] at ih ⊢

/-- A frame whose every slot is empty has no roots. -/
theorem roots_all_zero (f : HazardFrame) (h : ∀ s ∈ f, s = 0) :
    HazardFrame.roots f = [] := by
  rw [HazardFrame.roots, List.filter_eq_nil_iff]
  intro a ha
  simpa using h a ha

/-- Storing the null pointer does not change the roots. -/
theorem roots_store_zero (f : HazardFrame) :
    HazardFrame.roots (HazardFrame.store f 0) = HazardFrame.roots f := by
  induction f with
  | nil => rfl
  | cons s rest ih =>
    by_cases hs : s = 0
    · simp [HazardFrame.store, hs]
    · simpa [HazardFrame.store, hs, HazardFrame.roots] using ih

/-- Storing a non-null pointer adds it to the roots, up to order. -/
theorem roots_store_perm (f : HazardFrame) (p : Nat) (hp : p ≠ 0) :
    (HazardFrame.roots (HazardFrame.store f p)).Perm (p :: HazardFrame.roots f) := by
  induction f with
  | nil => simp [HazardFrame.store, HazardFrame.roots, hp]
  | cons s rest ih =>
    by_cases hs : s = 0
    · simp [HazardFrame.store, hs, HazardFrame.roots, hp]
    · have h1 : HazardFrame.store (s :: rest) p = s :: HazardFrame.store rest p := by
        simp [HazardFrame.store, hs]
      have h2 : HazardFrame.roots (s :: HazardFrame.store rest p) =
          s :: HazardFrame.roots (HazardFrame.store rest p) := by
        simp [HazardFrame.roots, hs]
      have h3 : HazardFrame.roots (s :: rest) = s :: HazardFrame.roots rest := by
        simp [HazardFrame.roots, hs]
      rw [h1, h2, h3]
      exact (ih.cons s).trans (List.Perm.swap p s (HazardFrame.roots rest))

/-- Storing a pointer list adds its non-null members to the roots, up to
order. -/
theorem roots_storeAll_perm (ps : List Nat) (f : HazardFrame) :
    (HazardFrame.roots (HazardFrame.storeAll f ps)).Perm
      (ps.filter (fun p => p ≠ 0) ++ HazardFrame.roots f) := by
  induction ps generalizing f with
  | nil => simp [HazardFrame.storeAll]
  | cons p rest ih =>
    have hstep : HazardFrame.storeAll f (p :: rest) =
        HazardFrame.storeAll (HazardFrame.store f p) rest := rfl
    rw [hstep]
    by_cases hp : p = 0
    · subst hp
      have h1 := ih (HazardFrame.store f 0)
      rw [roots_store_zero] at h1
      simpa using h1
    · have h1 := ih (HazardFrame.store f p)
      have h2 := roots_store_perm f p hp
      have h3 := h1.trans (List.Perm.append_left (rest.filter (fun p => p ≠ 0)) h2)
      have h4 : (rest.filter (fun p => p ≠ 0) ++ p :: HazardFrame.roots f).Perm
          (p :: (rest.filter (fun p => p ≠ 0) ++ HazardFrame.roots f)) :=
        List.perm_middle
      have h5 := h3.trans h4
      simpa [hp] using h5

/-- C7: after staging `ps` into an all-empty hazard frame, `clear` makes
`roots()` empty; without the clear, `roots()` is a permutation of the
multiset of the stored non-null pointers. -/
theorem hazard_frame_store_clear_roots (f : HazardFrame) (ps : List Nat)
    (hf : ∀ s ∈ f, s = 0) (hps : ∀ p ∈ ps, p ≠ 0) :
    HazardFrame.roots (HazardFrame.clear (HazardFrame.storeAll f ps)) = [] ∧
    (HazardFrame.roots (HazardFrame.storeAll f ps)).Perm ps := by
  refine ⟨roots_clear _, ?_⟩
  have h1 := roots_storeAll_perm ps f
  rw [roots_all_zero f hf, List.append_nil] at h1
  rwa [List.filter_eq_self.mpr (fun p hp => by simpa using hps p hp)] at h1

/-- Witness for `hazard_frame_store_clear_roots` on a fresh frame and two
pointers. -/
theorem hazard_frame_store_clear_roots_witness :
    HazardFrame.roots (HazardFrame.clear (HazardFrame.storeAll HazardFrame.new [123, 234])) = [] ∧
    (HazardFrame.roots (HazardFrame.storeAll HazardFrame.new [123, 234])).Perm [123, 234] :=
  hazard_frame_store_clear_roots HazardFrame.new [123, 234]
    (by intro s hs; simpa [HazardFrame.new] using hs) (by decide)

/-! ### Arbiter / `begin_write_only` lemmas -/

/-- `setFrame` never touches the arbiter byte. -/
theorem setFrame_arbiter (l : LocalWr) (i : Nat) (f : HazardFrame) :
    (l.setFrame i f).arbiter = l.arbiter := by
  rw [LocalWr.setFrame]
  split <;> rfl

/-- `setFrame` never touches the dirty word. -/
theorem setFrame_dirty (l : LocalWr) (i : Nat) (f : HazardFrame) :
    (l.setFrame i f).dirty = l.dirty := by
  rw [LocalWr.setFrame]
  split <;> rfl

/-- Reading back the frame just replaced. -/
theorem frameAt_setFrame_self (l : LocalWr) (i : Nat) (f : HazardFrame) :
    (l.setFrame i f).frameAt i = f := by
  rw [LocalWr.setFrame, LocalWr.frameAt]
  split <;> simp_all [LocalWr.frameAt]

/-- C2 counterexample: with the arbiter at 0 and a clean dirty word, a
staged pointer is stored into frame 0 — the frame selected by the
current arbiter value — while frame 1, the frame other than the current
one, is left untouched with no roots; `Arbiter::next` maps 0 to 0. -/
theorem begin_write_only_same_frame_cex :
    Arbiter.next 0 = 0 ∧
    (beginWriteOnly ⟨0, [0], [0], ⟨false, 0⟩⟩ [5]).1.frame0 = [5] ∧
    (beginWriteOnly ⟨0, [0], [0], ⟨false, 0⟩⟩ [5]).1.frame1 = [0] ∧
    HazardFrame.roots (beginWriteOnly ⟨0, [0], [0], ⟨false, 0⟩⟩ [5]).1.frame1 = [] ∧
    (beginWriteOnly ⟨0, [0], [0], ⟨false, 0⟩⟩ [5]).2 = true :=
  ⟨rfl, rfl, rfl, rfl, rfl⟩

/-- C2 (amended): for an arbiter value in 0, 1 the next arbiter value
`current % 2` equals the current one, so `begin_write_only` copies the
staged pointers into the frame selected by the current arbiter value and
leaves the other frame untouched; it then reads the dirty word, fails if
dirty, and otherwise publishes the (identical) next arbiter value — no
frame flip occurs. -/
theorem begin_write_only_same_frame (l : LocalWr) (staged : List Nat)
    (h : l.arbiter = 0 ∨ l.arbiter = 1) :
    Arbiter.next l.arbiter = l.arbiter ∧
    (beginWriteOnly l staged).1.frameAt l.arbiter =
      HazardFrame.storeAll (l.frameAt l.arbiter) staged ∧
    (beginWriteOnly l staged).1.frameAt (1 - l.arbiter) =
      l.frameAt (1 - l.arbiter) ∧
    (l.dirty.dirty = true → (beginWriteOnly l staged).2 = false) ∧
    (l.dirty.dirty = false → (beginWriteOnly l staged).2 = true ∧
      (beginWriteOnly l staged).1.arbiter = l.arbiter) := by
  rcases h with h | h <;>
    rcases l with ⟨a, f0, f1, dv⟩ <;> subst h <;>
    rcases hd : dv.dirty <;>
    simp [beginWriteOnly, Arbiter.next, LocalWr.frameAt, LocalWr.setFrame, hd]

/-- Witness for `begin_write_only_same_frame` at a concrete local state. -/
theorem begin_write_only_same_frame_witness :
    Arbiter.next (1 : Nat) = 1 ∧
    (beginWriteOnly ⟨1, [0], [0], ⟨false, 0⟩⟩ [7]).1.frameAt 1 =
      HazardFrame.storeAll (LocalWr.frameAt ⟨1, [0], [0], ⟨false, 0⟩⟩ 1) [7] ∧
    (beginWriteOnly ⟨1, [0], [0], ⟨false, 0⟩⟩ [7]).1.frameAt 0 =
      LocalWr.frameAt ⟨1, [0], [0], ⟨false, 0⟩⟩ 0 ∧
    (beginWriteOnly ⟨1, [0], [0], ⟨false, 0⟩⟩ [7]).2 = true := by
  have h := begin_write_only_same_frame ⟨1, [0], [0], ⟨false, 0⟩⟩ [7] (Or.inr rfl)
  exact ⟨h.1, h.2.1, h.2.2.1, (h.2.2.2.2 rfl).1⟩

/-- C10: when `begin_write_only` observes the dirty bit and returns
restart, it has already stored every staged pointer into the selected
hazard frame (every non-null staged pointer is among that frame's roots)
and rolls nothing back: the post state is exactly the pre state with
that one frame replaced, the arbiter byte and dirty word unchanged. -/
theorem begin_write_only_dirty_frame_effect (l : LocalWr) (staged : List Nat)
    (h : l.dirty.dirty = true) :
    (beginWriteOnly l staged).2 = false ∧
    (beginWriteOnly l staged).1 =
      l.setFrame (Arbiter.next l.arbiter)
        (HazardFrame.storeAll (l.frameAt (Arbiter.next l.arbiter)) staged) ∧
    (beginWriteOnly l staged).1.arbiter = l.arbiter ∧
    (beginWriteOnly l staged).1.dirty = l.dirty ∧
    (∀ p ∈ staged, p ≠ 0 →
      p ∈ HazardFrame.roots
        ((beginWriteOnly l staged).1.frameAt (Arbiter.next l.arbiter))) := by
  have hres : beginWriteOnly l staged =
      (l.setFrame (Arbiter.next l.arbiter)
        (HazardFrame.storeAll (l.frameAt (Arbiter.next l.arbiter)) staged), false) := by
    rw [beginWriteOnly]
    simp [h]
  refine ⟨by rw [hres], by rw [hres], ?_, ?_, ?_⟩
  · rw [hres]
    exact setFrame_arbiter _ _ _
  · rw [hres]
    exact setFrame_dirty _ _ _
  · intro p hp hp0
    rw [hres]
    simp only [frameAt_setFrame_self]
    have hperm := roots_storeAll_perm staged (l.frameAt (Arbiter.next l.arbiter))
    rw [hperm.mem_iff]
    exact List.mem_append_left _ (List.mem_filter.mpr ⟨hp, by simpa using hp0⟩)

/-- Witness for `begin_write_only_dirty_frame_effect` at a concrete dirty
local state. -/
theorem begin_write_only_dirty_frame_effect_witness :
    (beginWriteOnly ⟨0, [0], [0], ⟨true, 2⟩⟩ [9]).2 = false ∧
    (beginWriteOnly ⟨0, [0], [0], ⟨true, 2⟩⟩ [9]).1.arbiter = 0 ∧
    9 ∈ HazardFrame.roots
      ((beginWriteOnly ⟨0, [0], [0], ⟨true, 2⟩⟩ [9]).1.frameAt (Arbiter.next 0)) := by
  have h := begin_write_only_dirty_frame_effect ⟨0, [0], [0], ⟨true, 2⟩⟩ [9] rfl
  exact ⟨h.1, h.2.2.1, h.2.2.2.2 9 (List.mem_singleton.mpr rfl) (by decide)⟩

/-! ### Mark-stack lemmas -/

/-- `getD` on a replicated list of zeros is zero. -/
theorem getD_replicate_zero (n i : Nat) :
    (List.replicate n (0 : Nat)).getD i 0 = 0 := by
  rw [List.getD_eq_getElem?_getD]
  rcases Nat.lt_or_ge i n with h | h
  · simp [List.getElem?_replicate, h]
  · rw [List.getElem?_eq_none (by simpa using h)]
    rfl

/-- The backward scan stops at once on an occupied start index. -/
theorem findTop_here (cells : List Nat) (j : Nat) (h : cells.getD j 0 ≠ 0) :
    MarkStack.findTop cells j = some (j, cells.getD j 0) := by
  cases j with
  | zero => rw [MarkStack.findTop, if_pos h]
  | succ n => rw [MarkStack.findTop, if_pos h]

/-- Reading the seam position of a loaded-prefix cell list. -/
theorem getD_seam (qs zs : List Nat) (q : Nat) :
    (qs ++ [q] ++ zs).getD qs.length 0 = q := by
  rw [List.getD_eq_getElem?_getD, List.append_assoc,
    List.getElem?_append_right (Nat.le_refl _)]
  simp

/-- Writing the seam position of a loaded-prefix cell list. -/
theorem set_seam (qs zs : List Nat) (q v : Nat) :
    (qs ++ [q] ++ zs).set qs.length v = qs ++ [v] ++ zs := by
  rw [List.append_assoc, List.append_assoc, List.set_append_right _ _ (Nat.le_refl _)]
  simp

/-- A stack whose cells are all empty scans as empty. -/
theorem isEmptyScan_replicate (n : Nat) :
    MarkStack.isEmptyScan ⟨List.replicate n 0, 0⟩ = true := by
  simp [MarkStack.isEmptyScan, MarkStack.findTop, getD_replicate_zero]

/-- `pop` returns exactly what `peek` sees. -/
theorem pop_fst_eq_peek (s : MarkStack) : s.pop.1 = s.peek := by
  rw [MarkStack.pop, MarkStack.peek]
  cases MarkStack.findTop s.cells s.head <;> simp

/-- Pushing onto a stack whose occupied cells run exactly up to the head
appends a fresh cell and publishes it as the head. -/
theorem push_full_to_head (qs : List Nat) (d : Nat) (hne : qs ≠ [])
    (hnz : ∀ q ∈ qs, q ≠ 0) :
    MarkStack.push ⟨qs, qs.length - 1⟩ d = ⟨qs ++ [d], qs.length⟩ := by
  rcases List.eq_nil_or_concat qs with h | ⟨init, lst, h⟩
  · exact absurd h hne
  subst h
  simp only [List.concat_eq_append] at hnz ⊢
  have hlast : lst ≠ 0 := hnz lst (List.mem_append_right _ (List.mem_singleton.mpr rfl))
  have hdrop : (init ++ [lst]).drop ((init ++ [lst]).length - 1) = [lst] := by
    have : (init ++ [lst]).length - 1 = init.length := by simp
    rw [this]
    exact List.drop_left init [lst]
  have hempty : MarkStack.firstEmptyFrom (init ++ [lst]) ((init ++ [lst]).length - 1) =
      none := by
    rw [MarkStack.firstEmptyFrom, hdrop]
    simp [List.findIdx?, hlast]
  rw [MarkStack.push]
  simp only [hempty]

/-- Pushing a non-null list onto the fresh stack loads its cells with
exactly those pointers, the head at the last. -/
theorem pushAll_new (ps : List Nat) (hne : ps ≠ []) (hnz : ∀ p ∈ ps, p ≠ 0) :
    MarkStack.pushAll MarkStack.new ps = ⟨ps, ps.length - 1⟩ := by
  induction ps using List.reverseRecOn with
  | nil => exact absurd rfl hne
  | append_singleton init lst ih =>
    rcases List.eq_nil_or_concat init with h | ⟨init', lst', h⟩
    · subst h
      simp only [List.nil_append]
      rw [MarkStack.pushAll, List.foldl_cons, List.foldl_nil]
      rfl
    · have hinit : init ≠ [] := by subst h; simp
      have hnzinit : ∀ p ∈ init, p ≠ 0 := fun p hp =>
        hnz p (List.mem_append_left _ hp)
      have hstep : MarkStack.pushAll MarkStack.new (init ++ [lst]) =
          MarkStack.push (MarkStack.pushAll MarkStack.new init) lst := by
        rw [MarkStack.pushAll, MarkStack.pushAll, List.foldl_append, List.foldl_cons,
          List.foldl_nil]
      rw [hstep, ih hinit hnzinit,
        push_full_to_head init lst hinit hnzinit]
      simp

/-- Draining a loaded stack: popping once per occupied cell returns the
occupants in reverse order and leaves every cell empty. -/
theorem popMany_drain (qs : List Nat) (k : Nat) (hnz : ∀ q ∈ qs, q ≠ 0) :
    MarkStack.popMany qs.length ⟨qs ++ List.replicate k 0, qs.length - 1⟩ =
      (qs.reverse.map some, ⟨List.replicate (qs.length + k) 0, 0⟩) := by
  induction qs using List.reverseRecOn generalizing k with
  | nil => simp [MarkStack.popMany]
  | append_singleton init lst ih =>
    have hlst : lst ≠ 0 := hnz lst (List.mem_append_right _ (List.mem_singleton.mpr rfl))
    have hlen : (init ++ [lst]).length - 1 = init.length := by simp
    have hcells : (init ++ [lst]) ++ List.replicate k 0 =
        init ++ [lst] ++ List.replicate k 0 := by
      rw [List.append_assoc]
    have hget : (init ++ [lst] ++ List.replicate k 0).getD init.length 0 = lst :=
      getD_seam init (List.replicate k 0) lst
    have hfind : MarkStack.findTop (init ++ [lst] ++ List.replicate k 0) init.length =
        some (init.length, lst) := by
      rw [findTop_here _ _ (by rw [hget]; exact hlst), hget]
    have hpop : MarkStack.pop ⟨init ++ [lst] ++ List.replicate k 0, init.length⟩ =
        (some lst, ⟨init ++ List.replicate (k + 1) 0, init.length - 1⟩) := by
      rw [MarkStack.pop]
      simp only [hfind]
      rw [set_seam init (List.replicate k 0) lst 0]
      have hrep : init ++ [0] ++ List.replicate k 0 = init ++ List.replicate (k + 1) 0 := by
        rw [List.append_assoc]
        congr 1
      rw [hrep]
      rcases Nat.eq_zero_or_pos init.length with hz | hpos
      · have : init = [] := List.length_eq_zero.mp hz
        subst this
        simp
      · have : init.length ≠ 0 := Nat.pos_iff_ne_zero.mp hpos
        simp [this]
    have hnzinit : ∀ q ∈ init, q ≠ 0 := fun q hq => hnz q (List.mem_append_left _ hq)
    have hlen2 : (init ++ [lst]).length = init.length + 1 := by simp
    rw [hlen2, hcells]
    simp only [Nat.add_sub_cancel]
    rw [MarkStack.popMany, hpop]
    simp only [ih (k + 1) hnzinit]
    have hrev : (init ++ [lst]).reverse = lst :: init.reverse := by simp
    rw [hrev]
    have harith : init.length + (k + 1) = init.length + 1 + k := by omega
    rw [harith]
    rfl

/-- C6 counterexample: from the reachable stack state built by `push 10`,
`push 20`, `pop` (which leaves an empty cell above the head), a single
`push 30` followed by a single `pop` returns 10 — an element that was
not among the pushes — instead of the pushed 30. -/
theorem markstack_lifo_cex :
    ((((MarkStack.new.push 10).push 20).pop.2).push 30).pop.1 = some 10 ∧
    some (10 : Nat) ≠ some 30 :=
  ⟨rfl, by decide⟩

/-- C6 (amended): starting from the freshly created mark stack, N pushes
of distinct non-null pointers followed by N pops return exactly the N
pushed pointers in reverse push order. -/
theorem markstack_lifo_from_fresh (ps : List Nat) (hnd : ps.Nodup)
    (hnz : ∀ p ∈ ps, p ≠ 0) :
    (MarkStack.popMany ps.length (MarkStack.pushAll MarkStack.new ps)).1 =
      ps.reverse.map some := by
  rcases List.eq_nil_or_concat ps with h | ⟨init, lst, h⟩
  · subst h
    rfl
  · have hne : ps ≠ [] := by subst h; simp
    rw [pushAll_new ps hne hnz]
    have hdrain := popMany_drain ps 0 hnz
    rw [List.replicate_zero, List.append_nil] at hdrain
    rw [hdrain]

/-- Witness for `markstack_lifo_from_fresh` on three concrete pushes. -/
theorem markstack_lifo_from_fresh_witness :
    (MarkStack.popMany 3 (MarkStack.pushAll MarkStack.new [4, 5, 6])).1 =
      [some 6, some 5, some 4] := by
  simpa using markstack_lifo_from_fresh [4, 5, 6] (by decide) (by decide)

/-- C5 counterexample: entry stack holding 5 below the top pointer 7
(reachable by pushing the roots 5 and 7), node 7 unmarked at the local
phase with a single non-null child 9, and a marker CAS that fails: the
rollback pops the unrelated element 5 — the stack ends as cells
`[0, 9]`, still containing the pushed child 9 and no longer
containing 5. -/
theorem mark_node_rollback_cex :
    (markNode ⟨⟨[5, 7], 1⟩, none⟩ (fun _ => ⟨false, 3⟩) (fun _ => ⟨true, 3⟩)
      (fun _ => [9]) 3).1.stack = ⟨[0, 9], 0⟩ ∧
    (9 : Nat) ∈ ((markNode ⟨⟨[5, 7], 1⟩, none⟩ (fun _ => ⟨false, 3⟩)
      (fun _ => ⟨true, 3⟩) (fun _ => [9]) 3).1.stack).cells ∧
    (5 : Nat) ∉ ((markNode ⟨⟨[5, 7], 1⟩, none⟩ (fun _ => ⟨false, 3⟩)
      (fun _ => ⟨true, 3⟩) (fun _ => [9]) 3).1.stack).cells :=
  ⟨rfl, by decide, by decide⟩

/-- C5 (amended): `mark_node` returns Done iff the initial peek finds the
stack empty; a marked-or-wrong-phase top pointer is popped with NotDone,
no `cur_traced` publication and no child pushes; and on a failed final
marker CAS it performs one pop per pushed child — which removes exactly
the pushed children (in reverse push order, leaving the stack empty)
when the popped node was the only stack element, though not in general. -/
theorem mark_node_behaviour :
    (∀ (l : LocalMark) (mL mC : Nat → NodeMarks) (ch : Nat → List Nat) (lp : Nat),
      ((markNode l mL mC ch lp).2 = MarkNodeState.Done ↔ l.stack.peek = none)) ∧
    (∀ (l : LocalMark) (mL mC : Nat → NodeMarks) (ch : Nat → List Nat) (lp p : Nat),
      l.stack.peek = some p →
      ((mL p).marked = true ∨ (mL p).phase ≠ lp) →
      markNode l mL mC ch lp =
        ({ l with stack := l.stack.pop.2 }, MarkNodeState.NotDone) ∧
      l.stack.pop.1 = some p) ∧
    (∀ (mL mC : Nat → NodeMarks) (ch : Nat → List Nat) (lp p : Nat) (ct : Option Nat),
      p ≠ 0 → mL p = ⟨false, lp⟩ → mC p ≠ ⟨false, lp⟩ →
      (markNode ⟨⟨[p], 0⟩, ct⟩ mL mC ch lp).2 = MarkNodeState.NotDone ∧
      (markNode ⟨⟨[p], 0⟩, ct⟩ mL mC ch lp).1.curTraced = some p ∧
      (MarkStack.popMany ((ch p).filter (fun c => c ≠ 0)).length
          (MarkStack.pushAll (MarkStack.pop ⟨[p], 0⟩).2
            ((ch p).filter (fun c => c ≠ 0)))).1 =
        ((ch p).filter (fun c => c ≠ 0)).reverse.map some ∧
      (markNode ⟨⟨[p], 0⟩, ct⟩ mL mC ch lp).1.stack =
        (MarkStack.popMany ((ch p).filter (fun c => c ≠ 0)).length
          (MarkStack.pushAll (MarkStack.pop ⟨[p], 0⟩).2
            ((ch p).filter (fun c => c ≠ 0)))).2 ∧
      MarkStack.isEmptyScan (markNode ⟨⟨[p], 0⟩, ct⟩ mL mC ch lp).1.stack = true) := by
  refine ⟨?_, ?_, ?_⟩
  · intro l mL mC ch lp
    cases hpk : l.stack.peek with
    | none => simp [markNode, hpk]
    | some p =>
      simp only [markNode, hpk]
      split
      · simp
      · split <;> simp
  · intro l mL mC ch lp p hpk h
    have hcond : ((mL p).marked || (mL p).phase ≠ lp) = true := by
      rcases h with h | h <;> simp [h]
    constructor
    · simp only [markNode, hpk]
      rw [if_pos hcond]
    · rw [pop_fst_eq_peek, hpk]
  · intro mL mC ch lp p ct hp hload hcas
    have hgd : ([p] : List Nat).getD 0 0 = p := rfl
    have hft : MarkStack.findTop [p] 0 = some (0, p) := by
      have := findTop_here [p] 0 (by rw [hgd]; exact hp)
      rwa [hgd] at this
    have hpeek : MarkStack.peek ⟨[p], 0⟩ = some p := by
      rw [MarkStack.peek]
      simp [hft]
    have hpop : MarkStack.pop ⟨[p], 0⟩ = (some p, ⟨[0], 0⟩) := by
      rw [MarkStack.pop]
      simp [hft]
    have hcond : ((mL p).marked || (mL p).phase ≠ lp) = false := by
      rw [hload]
      simp
    have hres : markNode ⟨⟨[p], 0⟩, ct⟩ mL mC ch lp =
        ({ stack := (MarkStack.popMany ((ch p).filter (fun c => c ≠ 0)).length
            (MarkStack.pushAll (MarkStack.pop ⟨[p], 0⟩).2
              ((ch p).filter (fun c => c ≠ 0)))).2, curTraced := some p },
          MarkNodeState.NotDone) := by
      simp only [markNode, hpeek]
      rw [if_neg (by rw [hload]; simp), if_neg hcas]
    refine ⟨by rw [hres], by rw [hres], ?_, by rw [hres], ?_⟩
    · rw [hpop]
      rcases List.eq_nil_or_concat ((ch p).filter (fun c => c ≠ 0)) with hk | ⟨i, l, hk⟩
      · rw [hk]
        rfl
      · have hne : (ch p).filter (fun c => c ≠ 0) ≠ [] := by rw [hk]; simp
        have hnz : ∀ c ∈ (ch p).filter (fun c => c ≠ 0), c ≠ 0 := by
          intro c hc
          simpa using (List.mem_filter.mp hc).2
        have hnew : (⟨[0], 0⟩ : MarkStack) = MarkStack.new := rfl
        rw [hnew, pushAll_new _ hne hnz]
        have hdrain := popMany_drain ((ch p).filter (fun c => c ≠ 0)) 0 hnz
        rw [List.replicate_zero, List.append_nil] at hdrain
        rw [hdrain]
    · rw [hres, hpop]
      rcases List.eq_nil_or_concat ((ch p).filter (fun c => c ≠ 0)) with hk | ⟨i, l, hk⟩
      · rw [hk]
        exact isEmptyScan_replicate 1
      · have hne : (ch p).filter (fun c => c ≠ 0) ≠ [] := by rw [hk]; simp
        have hnz : ∀ c ∈ (ch p).filter (fun c => c ≠ 0), c ≠ 0 := by
          intro c hc
          simpa using (List.mem_filter.mp hc).2
        have hnew : (⟨[0], 0⟩ : MarkStack) = MarkStack.new := rfl
        rw [hnew, pushAll_new _ hne hnz]
        have hdrain := popMany_drain ((ch p).filter (fun c => c ≠ 0)) 0 hnz
        rw [List.replicate_zero, List.append_nil] at hdrain
        rw [hdrain]
        exact isEmptyScan_replicate _

/-- Witness for `mark_node_behaviour` on concrete inputs: a marked top
pointer is popped with NotDone, and the singleton-stack rollback leaves
an empty stack. -/
theorem mark_node_behaviour_witness :
    (markNode ⟨⟨[5], 0⟩, none⟩ (fun _ => ⟨true, 0⟩) (fun _ => ⟨true, 0⟩)
        (fun _ => []) 0 =
      ({ stack := (MarkStack.pop ⟨[5], 0⟩).2, curTraced := none },
        MarkNodeState.NotDone)) ∧
    MarkStack.isEmptyScan (markNode ⟨⟨[7], 0⟩, none⟩ (fun _ => ⟨false, 2⟩)
      (fun _ => ⟨true, 2⟩) (fun _ => [9, 11]) 2).1.stack = true := by
  constructor
  · exact (mark_node_behaviour.2.1 ⟨⟨[5], 0⟩, none⟩ (fun _ => ⟨true, 0⟩)
      (fun _ => ⟨true, 0⟩) (fun _ => []) 0 5 rfl (Or.inl rfl)).1
  · exact (mark_node_behaviour.2.2 (fun _ => ⟨false, 2⟩) (fun _ => ⟨true, 2⟩)
      (fun _ => [9, 11]) 2 7 none (by decide) rfl (by decide)).2.2.2.2

/-! ### Allocation-buffer lemmas -/

/-- A slot list that reads zero everywhere filters to nothing. -/
theorem filter_nil_of_all_zero (l : List Nat) (h : ∀ i, l.getD i 0 = 0) :
    l.filter (fun x => x ≠ 0) = [] := by
  induction l with
  | nil => rfl
  | cons x xs ih =>
    have hx : x = 0 := h 0
    have hxs : ∀ i, xs.getD i 0 = 0 := fun i => h (i + 1)
    have hres := ih hxs
    subst hx
    rw [List.filter_cons]
    simpa using hres

/-- Under the owner discipline the number of non-null slots is the head
index. -/
theorem filter_length_eq_head (l : List Nat) (h : Nat) (hle : h ≤ l.length)
    (hlo : ∀ i, i < h → l.getD i 0 ≠ 0) (hhi : ∀ i, h ≤ i → l.getD i 0 = 0) :
    (l.filter (fun x => x ≠ 0)).length = h := by
  induction l generalizing h with
  | nil =>
    have : h = 0 := Nat.le_zero.mp hle
    subst this
    rfl
  | cons x xs ih =>
    cases h with
    | zero =>
      rw [filter_nil_of_all_zero (x :: xs) (fun i => hhi i (Nat.zero_le i))]
      rfl
    | succ h' =>
      have hx : x ≠ 0 := hlo 0 (Nat.succ_pos h')
      have hle' : h' ≤ xs.length := by simpa using hle
      have hlo' : ∀ i, i < h' → xs.getD i 0 ≠ 0 := fun i hi =>
        hlo (i + 1) (Nat.succ_lt_succ hi)
      have hhi' : ∀ i, h' ≤ i → xs.getD i 0 = 0 := fun i hi =>
        hhi (i + 1) (Nat.succ_le_succ hi)
      have hres := ih h' hle' hlo' hhi'
      simp only [ne_eq, decide_not] at hres ⊢
      simp [hx, hres]

/-- The fresh buffer satisfies the owner discipline. -/
theorem wf_new_buffer : AllocationBuffer.new.wf := by
  refine ⟨by simp [AllocationBuffer.new], by simp [AllocationBuffer.new, BUFFER_SIZE], ?_, ?_⟩
  · intro i hi
    exact absurd hi (by simp [AllocationBuffer.new])
  · intro i hi
    exact getD_replicate_zero BUFFER_SIZE i

set_option maxRecDepth 8192 in
/-- C4 counterexample: 127 consecutive inserts from the empty buffer all
succeed and leave it holding 127 non-null pointers — fewer than 128 —
yet the 128th insert fails: `AllocationBuffer::insert` rejects as soon
as `head + 1` reaches `BUFFER_SIZE`. -/
theorem buffer_insert_at_127_cex :
    (AllocationBuffer.new.insertAll ((List.range 127).map (fun i => i + 1))).2.all
      (fun x => x) = true ∧
    ((AllocationBuffer.new.insertAll ((List.range 127).map (fun i => i + 1))).1.buffer.filter
      (fun x => x ≠ 0)).length = 127 ∧
    (127 : Nat) < 128 ∧
    ((AllocationBuffer.new.insertAll
      ((List.range 127).map (fun i => i + 1))).1.insert 200).2 = false :=
  ⟨by decide, by decide, by decide, by decide⟩

set_option maxRecDepth 8192 in
/-- C4 (amended): under the single-owner discipline `insert` succeeds iff
the buffer holds fewer than `BUFFER_SIZE - 1 = 127` pointers (so exactly
127 consecutive inserts from empty succeed and the 128th fails), and
`pop` returns None iff the buffer is empty. -/
theorem buffer_capacity_127 :
    (∀ (b : AllocationBuffer) (p : Nat), b.wf →
      ((b.insert p).2 = true ↔
        (b.buffer.filter (fun x => x ≠ 0)).length < BUFFER_SIZE - 1)) ∧
    (∀ b : AllocationBuffer, b.wf →
      (b.pop.1 = none ↔ (b.buffer.filter (fun x => x ≠ 0)).length = 0)) ∧
    (AllocationBuffer.new.insertAll ((List.range 127).map (fun i => i + 1))).2.all
      (fun x => x) = true ∧
    ((AllocationBuffer.new.insertAll
      ((List.range 127).map (fun i => i + 1))).1.insert 200).2 = false := by
  refine ⟨?_, ?_, by decide, by decide⟩
  · intro b p hwf
    obtain ⟨hlen, hhead, hlo, hhi⟩ := hwf
    have hcount : (b.buffer.filter (fun x => x ≠ 0)).length = b.head :=
      filter_length_eq_head b.buffer b.head (hlen ▸ hhead) hlo hhi
    rw [hcount, AllocationBuffer.insert]
    by_cases hfull : b.head + 1 ≥ BUFFER_SIZE
    · rw [if_pos hfull]
      simp [BUFFER_SIZE] at hfull ⊢
      omega
    · rw [if_neg hfull]
      rw [if_pos (hhi b.head (Nat.le_refl _))]
      simp [BUFFER_SIZE] at hfull ⊢
      omega
  · intro b hwf
    obtain ⟨hlen, hhead, hlo, hhi⟩ := hwf
    have hcount : (b.buffer.filter (fun x => x ≠ 0)).length = b.head :=
      filter_length_eq_head b.buffer b.head (hlen ▸ hhead) hlo hhi
    rw [hcount, AllocationBuffer.pop]
    by_cases hz : b.head < 1
    · rw [if_pos hz]
      simp
      omega
    · rw [if_neg hz]
      simp
      omega

/-- Witness for `buffer_capacity_127` on the fresh buffer. -/
theorem buffer_capacity_127_witness :
    (AllocationBuffer.new.insert 5).2 = true ∧ AllocationBuffer.new.pop.1 = none := by
  constructor
  · exact (buffer_capacity_127.1 AllocationBuffer.new 5 wf_new_buffer).mpr (by decide)
  · exact (buffer_capacity_127.2.1 AllocationBuffer.new wf_new_buffer).mpr (by decide)

end FreeAccess
